import Mathlib

/-!
Verification development for the hopper AT-URI resolver.

Rust strings are modelled as lists of characters (`Str`); byte lengths
(`str::len`) are modelled as UTF-8 lengths via `charBytes`, and the
ASCII-byte-class checks of the source (`u8::is_ascii_lowercase` etc.) are
modelled at the character level, which coincides with the byte level because
every multi-byte UTF-8 character has bytes outside all ASCII classes.
-/

set_option autoImplicit false

abbrev Str := List Char

def str (s : String) : Str := s.toList

/-- UTF-8 encoded size of one character, in bytes. -/
def charBytes (c : Char) : Nat :=
  if c.toNat < 128 then 1
  else if c.toNat < 2048 then 2
  else if c.toNat < 65536 then 3
  else 4

/-- Rust `str::len`: length of the string in UTF-8 bytes. -/
def utf8Len (s : Str) : Nat := (s.map charBytes).sum

/-- Rust `str::split(sep)` semantics: `[] ↦ [[]]`, keeps empty segments. -/
def splitOnChar (sep : Char) : Str → List Str
  | [] => [[]]
  | c :: rest =>
    let r := splitOnChar sep rest
    if c = sep then [] :: r
    else
      match r with
      | [] => [[c]]
      | x :: xs => (c :: x) :: xs

/-- Rust `str::strip_prefix`. -/
def stripPfx : Str → Str → Option Str
  | [], s => some s
  | _ :: _, [] => none
  | p :: ps, c :: cs => if p = c then stripPfx ps cs else none

/-- Rust `char::is_whitespace`: the Unicode White_Space property
(U+0009-U+000D, U+0020, U+0085, U+00A0, U+1680, U+2000-U+200A, U+2028,
U+2029, U+202F, U+205F, U+3000). -/
def rustIsWhitespace (c : Char) : Bool :=
  (9 ≤ c.toNat && c.toNat ≤ 13)
  || c.toNat == 32
  || c.toNat == 0x85
  || c.toNat == 0xA0
  || c.toNat == 0x1680
  || (0x2000 ≤ c.toNat && c.toNat ≤ 0x200A)
  || c.toNat == 0x2028
  || c.toNat == 0x2029
  || c.toNat == 0x202F
  || c.toNat == 0x205F
  || c.toNat == 0x3000

/-- Rust `str::trim`: drop Unicode whitespace from both ends. -/
def trimList (s : Str) : Str :=
  ((s.dropWhile rustIsWhitespace).reverse.dropWhile rustIsWhitespace).reverse

/-- Rust `str::starts_with(c: char)`. -/
def startsWithChar : Str → Char → Bool
  | [], _ => false
  | x :: _, c => x == c

/-- Rust `str::ends_with(c: char)`. -/
def endsWithChar (s : Str) (c : Char) : Bool :=
  match s.getLast? with
  | some x => x == c
  | none => false

/-- First-match association-list lookup (models `HashMap::get` / moka `get`). -/
def alookup {α : Type} : List (Str × α) → Str → Option α
  | [], _ => none
  | (k, v) :: rest, key => if k = key then some v else alookup rest key

/-! ## model.rs -/

structure AtUri where
  identity : Str
  collection : Option Str
  rkey : Option Str
deriving DecidableEq, Repr

/-- The byte class `[A-Za-z0-9.-]` used by `is_valid_nsid` / `is_valid_hostname`. -/
def is_valid_char (c : Char) : Bool :=
  (97 ≤ c.toNat && c.toNat ≤ 122)
  || (65 ≤ c.toNat && c.toNat ≤ 90)
  || (48 ≤ c.toNat && c.toNat ≤ 57)
  || c.toNat == 45
  || c.toNat == 46

def is_valid_nsid (nsid : Str) : Bool :=
  !(nsid.any (fun c => !is_valid_char c)
    || (splitOnChar '.' nsid).length < 3
    || (splitOnChar '.' nsid).any (fun label =>
        label.isEmpty || utf8Len label > 63
        || startsWithChar label '-' || endsWithChar label '-')
    || nsid.isEmpty
    || utf8Len nsid > 253)

def is_valid_hostname (hostname : Str) : Bool :=
  !((str ".localhost").isSuffixOf hostname
    || (str ".internal").isSuffixOf hostname
    || (str ".arpa").isSuffixOf hostname
    || (str ".local").isSuffixOf hostname
    || hostname.any (fun c => !is_valid_char c)
    || (splitOnChar '.' hostname).any (fun label =>
        label.isEmpty || utf8Len label > 63
        || startsWithChar label '-' || endsWithChar label '-')
    || hostname.isEmpty
    || utf8Len hostname > 253)

def is_valid_identity (identity : Str) : Bool :=
  match stripPfx (str "did:web:") identity with
  | some trimmed =>
    let inner_parts := splitOnChar ':' trimmed
    !inner_parts.isEmpty
      && (match inner_parts.head? with
          | some hostname =>
            is_valid_hostname hostname && hostname.any (fun c => c == '.')
          | none => false)
  | none =>
    match stripPfx (str "did:plc:") identity with
    | some remaining => utf8Len remaining == 24
    | none =>
      is_valid_hostname identity && identity.any (fun c => c == '.')

def validate_aturi (input : Str) : Option AtUri :=
  let aturi := trimList input
  match stripPfx (str "at://") aturi with
  | none => none
  | some stripped =>
    let parts := splitOnChar '/' stripped
    if !parts.isEmpty && !is_valid_identity (parts.headD []) then none
    else if parts.length > 1 && !is_valid_nsid ((parts.get? 1).getD []) then none
    else if parts.length > 3 then none
    else some ⟨parts.headD [], parts.get? 1, parts.get? 2⟩

/-! ## Template expansion (shared text of webfinger.rs / webhostmeta.rs) -/

/-- Rust `str::replace`: leftmost, non-overlapping, all occurrences. The fuel
argument (instantiated with the string length) only makes the recursion
structural; it is never exhausted when the pattern is non-empty. -/
def replaceAllGo (pat rep : Str) : Nat → Str → Str
  | _, [] => []
  | 0, s => s
  | fuel + 1, c :: rest =>
    if pat.isPrefixOf (c :: rest) then
      rep ++ replaceAllGo pat rep fuel ((c :: rest).drop pat.length)
    else
      c :: replaceAllGo pat rep fuel rest

def replaceAll (pat rep s : Str) : Str := replaceAllGo pat rep s.length s

/-- The three `template.replace` steps of both `match_uri` functions. -/
def expandTemplate (template : Str) (aturi : AtUri) : Str :=
  let r1 := replaceAll (str "{identity}") aturi.identity template
  let r2 := match aturi.collection with
    | some collection => replaceAll (str "{collection}") collection r1
    | none => r1
  match aturi.rkey with
  | some nsid => replaceAll (str "{rkey}") nsid r2
  | none => r2

/-! ## webhostmeta.rs -/

def REL_LINK : Str := str "http://hopper.at/rel/link"

def NS_COLLECTION : Str := str "http://hopper.at/ns/collection"

structure WhmLink where
  rel : Str
  template : Option Str
  properties : List (Str × Str)
deriving DecidableEq, Repr

structure WebHostMeta where
  properties : List (Str × Str)
  links : List WhmLink
deriving DecidableEq, Repr

/-- The `for link in &self.links` loop of `WebHostMeta::match_uri`. -/
def whmMatchLinks (pfx : Str) (aturi : AtUri) : List WhmLink → Option Str
  | [] => none
  | link :: rest =>
    if link.rel ≠ REL_LINK then whmMatchLinks pfx aturi rest
    else
      match link.template with
      | none => whmMatchLinks pfx aturi rest
      | some template =>
        if !pfx.isPrefixOf template then whmMatchLinks pfx aturi rest
        else
          let matching_collection := aturi.collection.getD (str "identity")
          let compare_collection :=
            (alookup link.properties NS_COLLECTION).getD (str "identity")
          if compare_collection ≠ matching_collection then
            whmMatchLinks pfx aturi rest
          else some (expandTemplate template aturi)

def WebHostMeta.match_uri (doc : WebHostMeta) (server : Str) (aturi : AtUri) :
    Option Str :=
  whmMatchLinks (str "https://" ++ server) aturi doc.links

/-- The matcher that §4.3 of the specification describes, written from the
spec's words: the first link in document order satisfying the four conditions,
expanded. Compared against `WebHostMeta.match_uri` for claim C3. -/
def specLinkOk (server : Str) (aturi : AtUri) (link : WhmLink) : Bool :=
  link.rel == REL_LINK
  && link.template.isSome
  && (str "https://" ++ server).isPrefixOf (link.template.getD [])
  && (alookup link.properties NS_COLLECTION).getD (str "identity")
      == aturi.collection.getD (str "identity")

/-- Spec §4.3 expansion: replace the identity placeholder, then the collection
and rkey placeholders each only if that AT-URI field is present. -/
def specExpand (template : Str) (aturi : AtUri) : Str :=
  let r1 := replaceAll (str "{identity}") aturi.identity template
  let r2 := match aturi.collection with
    | some collection => replaceAll (str "{collection}") collection r1
    | none => r1
  match aturi.rkey with
  | some rkey => replaceAll (str "{rkey}") rkey r2
  | none => r2

def specMatch (doc : WebHostMeta) (server : Str) (aturi : AtUri) : Option Str :=
  (doc.links.find? (specLinkOk server aturi)).map
    (fun link => specExpand (link.template.getD []) aturi)

/-! ## webfinger.rs -/

structure WfLink where
  rel : Str
  href : Str
  properties : List (Str × Str)
deriving DecidableEq, Repr

structure Webfinger where
  subject : Str
  properties : List (Str × Str)
  links : List WfLink
deriving DecidableEq, Repr

/-- The `for link in &self.links` loop of `Webfinger::match_uri`. -/
def wfMatchLinks (pfx : Str) (aturi : AtUri) : List WfLink → Option Str
  | [] => none
  | link :: rest =>
    if !pfx.isPrefixOf link.href then wfMatchLinks pfx aturi rest
    else if link.rel ≠ str "https://hopper.at/spec/schema/1.0/link" then
      wfMatchLinks pfx aturi rest
    else
      let matching_collection := aturi.collection.getD (str "identity")
      match alookup link.properties
          (str "https://hopper.at/spec/schema/1.0/link#collection") with
      | some collection_value =>
        if collection_value ≠ matching_collection then wfMatchLinks pfx aturi rest
        else some (expandTemplate link.href aturi)
      | none => some (expandTemplate link.href aturi)

def Webfinger.match_uri (doc : Webfinger) (server : Str) (aturi : AtUri) :
    Option Str :=
  wfMatchLinks (str "https://" ++ server) aturi doc.links

/-- Field-and-constant translation between the two protocol variants: the
host-meta relation constant becomes the webfinger one, `template` becomes
`href`, and the host-meta scope property key becomes the webfinger one.
Properties other than the scope key are ignored by both matchers. -/
def translateLink (link : WhmLink) : WfLink :=
  { rel := if link.rel = REL_LINK
      then str "https://hopper.at/spec/schema/1.0/link" else link.rel
    href := link.template.getD []
    properties :=
      match alookup link.properties NS_COLLECTION with
      | some v => [(str "https://hopper.at/spec/schema/1.0/link#collection", v)]
      | none => [] }

def translateDoc (doc : WebHostMeta) : Webfinger :=
  { subject := [], properties := doc.properties
    links := doc.links.map translateLink }

/-! ## cache.rs -/

inductive ResolveWebHostMetaResult where
  | Found (w : WebHostMeta)
  | NotFound (e : Str)
deriving DecidableEq, Repr

inductive ResolveAtUriResult where
  | Found (destination : Str)
  | NotFound (e : Str)
deriving DecidableEq, Repr

/-- `ResolveWebHostMetaExpiry::expire_after_create`, duration in seconds. -/
def ResolveWebHostMetaExpiry.expire_after_create
    (value : ResolveWebHostMetaResult) : Option Nat :=
  match value with
  | .Found _ => none
  | .NotFound _ => some (60 * 10)

/-- `ResolveAtUriExpiry::expire_after_create`, duration in seconds. -/
def ResolveAtUriExpiry.expire_after_create
    (value : ResolveAtUriResult) : Option Nat :=
  match value with
  | .Found _ => some (60 * 30)
  | .NotFound _ => some (60 * 10)

/-- `max_capacity` of `new_resolve_webhostmeta_cache`. -/
def webhostmeta_cache_max_capacity : Nat := 1024 * 20

/-- `max_capacity` of `new_resolve_aturi_cache`. -/
def aturi_cache_max_capacity : Nat := 1024 * 20

/-- State of the two moka caches, modelled as association lists restricted to
the live (unexpired) entries; insertion puts the new binding in front, which
models moka's replace-on-insert for lookup purposes. -/
abbrev DCache := List (Str × ResolveWebHostMetaResult)

abbrev ACache := List (Str × ResolveAtUriResult)

/-- The network oracle standing for `webhostmeta::query`: what one fetch of a
given hostname's discovery document returns during this resolution. -/
abbrev Fetch := Str → Except Str WebHostMeta

/-- `webhostmeta_cached`: cache-aside in front of the fetch. Returns the
outcome, the updated cache, and the number of fetches performed (0 or 1). -/
def webhostmeta_cached (fetch : Fetch) (cache : DCache) (hostname : Str) :
    Except Str WebHostMeta × DCache × Nat :=
  match alookup cache hostname with
  | some (.Found webhostmeta) => (.ok webhostmeta, cache, 0)
  | some (.NotFound err) => (.error err, cache, 0)
  | none =>
    match fetch hostname with
    | .ok webfinger => (.ok webfinger, (hostname, .Found webfinger) :: cache, 1)
    | .error err => (.error err, (hostname, .NotFound err) :: cache, 1)

/-- The `hasher.write(..)` sequence of `aturi_cached` followed by
`finish().to_string()`. `hashFn` stands for the CityHash of a byte sequence
(the `cityhasher::CityHasher` accumulates everything written and hashes the
whole buffer at `finish`), so the argument is the raw input concatenated with
every server string, in order, with no separator. -/
def cache_key (hashFn : Str → Nat) (aturi_input : Str) (servers : List Str) :
    Str :=
  (Nat.repr (hashFn (aturi_input ++ servers.flatten))).toList

def UNSUPPORTED_MSG : Str := str "error-web-unsupported-aturi Unsupported AT-URI"

/-- The `for server in servers` loop of `aturi_cached`. Returns the first
destination found (if any), the updated discovery cache, and the number of
fetches performed. -/
def aturi_loop (fetch : Fetch) (aturi : AtUri) :
    List Str → DCache → Option Str × DCache × Nat
  | [], dcache => (none, dcache, 0)
  | server :: rest, dcache =>
    match webhostmeta_cached fetch dcache server with
    | (.error _, dcache', n) =>
      let (o, dcache'', m) := aturi_loop fetch aturi rest dcache'
      (o, dcache'', n + m)
    | (.ok webfinger, dcache', n) =>
      match webfinger.match_uri server aturi with
      | none =>
        let (o, dcache'', m) := aturi_loop fetch aturi rest dcache'
        (o, dcache'', n + m)
      | some destination => (some destination, dcache', n)

/-- `aturi_cached`: the resolution orchestrator. Returns the outcome, the two
updated caches, and the number of discovery fetches performed. -/
def aturi_cached (hashFn : Str → Nat) (fetch : Fetch) (webfinger_cache : DCache)
    (aturi_cache : ACache) (servers : List Str) (aturi_input : Str)
    (aturi : AtUri) : Except Str Str × DCache × ACache × Nat :=
  let key := cache_key hashFn aturi_input servers
  match alookup aturi_cache key with
  | some (.Found destination) => (.ok destination, webfinger_cache, aturi_cache, 0)
  | some (.NotFound err) => (.error err, webfinger_cache, aturi_cache, 0)
  | none =>
    match aturi_loop fetch aturi servers webfinger_cache with
    | (some destination, dcache', n) =>
      (.ok destination, dcache', (key, .Found destination) :: aturi_cache, n)
    | (none, dcache', n) =>
      (.error UNSUPPORTED_MSG, dcache',
        (key, .NotFound UNSUPPORTED_MSG) :: aturi_cache, n)

/-! Spec-side view of the loop for claim C1: the outcome each server would
contribute, and the first non-empty one in caller-supplied order. -/

def fetchResultOf (fetch : Fetch) (hostname : Str) : ResolveWebHostMetaResult :=
  match fetch hostname with
  | .ok w => .Found w
  | .error e => .NotFound e

/-- The discovery outcome server `s` yields: the live cache entry if present,
otherwise what a fetch returns. -/
def serverDoc (fetch : Fetch) (dcache : DCache) (s : Str) :
    ResolveWebHostMetaResult :=
  (alookup dcache s).getD (fetchResultOf fetch s)

/-- The destination server `s` contributes: nothing on a fetch error, else the
template match of its discovery document. -/
def serverDest (fetch : Fetch) (dcache : DCache) (aturi : AtUri) (s : Str) :
    Option Str :=
  match serverDoc fetch dcache s with
  | .Found w => w.match_uri s aturi
  | .NotFound _ => none

/-- First server in caller-supplied order contributing a destination; fetch
errors and non-matching documents only skip to the next server. -/
def firstDest (fetch : Fetch) (dcache : DCache) (aturi : AtUri) :
    List Str → Option Str
  | [] => none
  | s :: rest =>
    match serverDest fetch dcache aturi s with
    | some destination => some destination
    | none => firstDest fetch dcache aturi rest

/-- Every live discovery-cache entry is what fetching its key would produce
(entries are only ever created from completed fetches of the same oracle). -/
def DCoherent (fetch : Fetch) (dcache : DCache) : Prop :=
  ∀ s r, alookup dcache s = some r → r = fetchResultOf fetch s

/-- Hostname validity as claim C9 words it: non-empty, at most 253 bytes,
every byte in `[A-Za-z0-9.-]`, no forbidden suffix, and every dot-delimited
label is 1 to 63 characters and neither starts nor ends with a dash. -/
def hostnameClaim (h : Str) : Bool :=
  !h.isEmpty
  && utf8Len h ≤ 253
  && h.all is_valid_char
  && !(str ".localhost").isSuffixOf h
  && !(str ".internal").isSuffixOf h
  && !(str ".arpa").isSuffixOf h
  && !(str ".local").isSuffixOf h
  && (splitOnChar '.' h).all (fun label =>
      1 ≤ label.length && label.length ≤ 63
      && !startsWithChar label '-' && !endsWithChar label '-')

/-! # Theorems -/

/-! Sanity examples reproducing the repository's own unit tests and the
behaviour discussed in the claims. -/

example : validate_aturi (str "at://ngerakines.me") =
    some ⟨str "ngerakines.me", none, none⟩ := by decide
example : validate_aturi (str "at://nodothandle") = none := by decide
example : validate_aturi (str "at://a/b/c/d") = none := by decide
example : validate_aturi (str "at://did:plc:aaaaaaaaaaaaaaaaaaaaaaaa") =
    some ⟨str "did:plc:aaaaaaaaaaaaaaaaaaaaaaaa", none, none⟩ := by decide
example : validate_aturi (str "at://did:web:example.com:8080") =
    some ⟨str "did:web:example.com:8080", none, none⟩ := by decide
example : validate_aturi (str "at://did:web:localhost") = none := by decide
example : validate_aturi (str " at://a.b") = some ⟨str "a.b", none, none⟩ := by decide
example : validate_aturi (str "at://a.b/a.b.c/!") =
    some ⟨str "a.b", some (str "a.b.c"), some (str "!")⟩ := by decide
example :
    validate_aturi (str "at://did:plc:aaaaaaaaaaaaaaaaaaaaaaaa/a.b.c") =
      some ⟨str "did:plc:aaaaaaaaaaaaaaaaaaaaaaaa", some (str "a.b.c"), none⟩ := by
  decide

example :
    WebHostMeta.match_uri
      ⟨[], [⟨REL_LINK, some (str "https://smokesignal.events/{identity}"),
             [(NS_COLLECTION, str "identity")]⟩]⟩
      (str "smokesignal.events")
      ⟨str "ngerakines.me", none, none⟩ =
      some (str "https://smokesignal.events/ngerakines.me") := by decide

example :
    WebHostMeta.match_uri
      ⟨[], [⟨REL_LINK, some (str "https://smokesignal.events/{identity}"),
             [(NS_COLLECTION, str "identity")]⟩]⟩
      (str "smokesignal.events")
      ⟨str "smokesignal.events", some (str "event"), some (str "s0xnr5kqnp")⟩ =
      none := by decide

example :
    Webfinger.match_uri
      ⟨str "acct:smokesignal.events", [],
       [⟨str "https://hopper.at/spec/schema/1.0/link",
         str "https://smokesignal.events/{identity}",
         [(str "https://hopper.at/spec/schema/1.0/link#collection",
           str "identity")]⟩]⟩
      (str "smokesignal.events")
      ⟨str "ngerakines.me", none, none⟩ =
      some (str "https://smokesignal.events/ngerakines.me") := by decide


/-- C5: a Found entry in the discovery-document cache never expires on time
while a NotFound entry expires after 10 minutes; a Found entry in the
resolution cache expires after 30 minutes and a NotFound entry after
10 minutes; both caches are bounded at 20,480 entries. -/
theorem cache_expiry_and_capacity_policy :
    (∀ w, ResolveWebHostMetaExpiry.expire_after_create (.Found w) = none)
    ∧ (∀ e, ResolveWebHostMetaExpiry.expire_after_create (.NotFound e) =
        some (10 * 60))
    ∧ (∀ d, ResolveAtUriExpiry.expire_after_create (.Found d) = some (30 * 60))
    ∧ (∀ e, ResolveAtUriExpiry.expire_after_create (.NotFound e) =
        some (10 * 60))
    ∧ webhostmeta_cache_max_capacity = 20480
    ∧ aturi_cache_max_capacity = 20480 := by
  refine ⟨fun w => rfl, fun e => rfl, fun d => rfl, fun e => rfl, rfl, rfl⟩

theorem aturi_cached_hit_helper (hashFn : Str → Nat) (fetch : Fetch)
    (dcache : DCache) (acache : ACache) (servers : List Str) (input : Str)
    (aturi : AtUri) (r : ResolveAtUriResult)
    (h : alookup acache (cache_key hashFn input servers) = some r) :
    aturi_cached hashFn fetch dcache acache servers input aturi =
      (match r with
       | .Found destination => .ok destination
       | .NotFound e => .error e,
       dcache, acache, 0) := by
  unfold aturi_cached
  cases r <;> simp [h]

/-- C4: when the resolution cache holds a live entry for the computed key,
`aturi_cached` returns the stored outcome (success for `Found`, the remembered
failure for `NotFound`), performs no discovery fetch, and leaves both caches
unchanged. -/
theorem aturi_cached_cache_hit (hashFn : Str → Nat) (fetch : Fetch)
    (dcache : DCache) (acache : ACache) (servers : List Str) (input : Str)
    (aturi : AtUri) (r : ResolveAtUriResult)
    (h : alookup acache (cache_key hashFn input servers) = some r) :
    aturi_cached hashFn fetch dcache acache servers input aturi =
      (match r with
       | .Found destination => .ok destination
       | .NotFound e => .error e,
       dcache, acache, 0) :=
  aturi_cached_hit_helper hashFn fetch dcache acache servers input aturi r h

theorem aturi_cached_cache_hit_witness :
    alookup [(cache_key (fun _ => 0) (str "at://a.b") [str "s"],
        ResolveAtUriResult.Found (str "https://s/a.b"))]
      (cache_key (fun _ => 0) (str "at://a.b") [str "s"]) =
      some (ResolveAtUriResult.Found (str "https://s/a.b"))
    ∧ aturi_cached (fun _ => 0) (fun _ => .error [])
        []
        [(cache_key (fun _ => 0) (str "at://a.b") [str "s"],
          ResolveAtUriResult.Found (str "https://s/a.b"))]
        [str "s"] (str "at://a.b") ⟨str "a.b", none, none⟩ =
        (.ok (str "https://s/a.b"), [],
         [(cache_key (fun _ => 0) (str "at://a.b") [str "s"],
           ResolveAtUriResult.Found (str "https://s/a.b"))], 0) :=
  ⟨by decide,
   aturi_cached_cache_hit (fun _ => 0) (fun _ => .error []) []
     [(cache_key (fun _ => 0) (str "at://a.b") [str "s"],
       ResolveAtUriResult.Found (str "https://s/a.b"))]
     [str "s"] (str "at://a.b") ⟨str "a.b", none, none⟩
     (ResolveAtUriResult.Found (str "https://s/a.b")) (by decide)⟩

/-- C10: the resolution cache key hashes the raw input and the server strings
concatenated with no separator, so the distinct inputs
(`"at://ab"`, `["c"]`) and (`"at://a"`, `["bc"]`) share a cache key, and an
outcome cached under the first is returned for the second. -/
theorem cache_key_collision :
    ((str "at://ab", [str "c"]) ≠ (str "at://a", [str "bc"]))
    ∧ (∀ hashFn, cache_key hashFn (str "at://ab") [str "c"] =
        cache_key hashFn (str "at://a") [str "bc"])
    ∧ (∀ (hashFn : Str → Nat) (fetch : Fetch) (dcache : DCache)
        (acache : ACache) (aturi : AtUri) (destination : Str),
        alookup acache (cache_key hashFn (str "at://ab") [str "c"]) =
          some (.Found destination) →
        (aturi_cached hashFn fetch dcache acache [str "bc"] (str "at://a")
            aturi).1 = .ok destination) := by
  have hkey : ∀ hashFn : Str → Nat,
      cache_key hashFn (str "at://ab") [str "c"] =
        cache_key hashFn (str "at://a") [str "bc"] := by
    intro hashFn
    unfold cache_key
    exact congrArg (fun n => (Nat.repr n).toList) (congrArg hashFn (by decide))
  refine ⟨by decide, hkey, ?_⟩
  intro hashFn fetch dcache acache aturi destination h
  rw [hkey hashFn] at h
  rw [aturi_cached_hit_helper hashFn fetch dcache acache [str "bc"]
    (str "at://a") aturi (.Found destination) h]

theorem cache_key_collision_witness :
    alookup [(cache_key (fun _ => 0) (str "at://ab") [str "c"],
        ResolveAtUriResult.Found (str "u"))]
      (cache_key (fun _ => 0) (str "at://ab") [str "c"]) =
      some (ResolveAtUriResult.Found (str "u"))
    ∧ (aturi_cached (fun _ => 0) (fun _ => .error []) []
        [(cache_key (fun _ => 0) (str "at://ab") [str "c"],
          ResolveAtUriResult.Found (str "u"))]
        [str "bc"] (str "at://a") ⟨str "a.b", none, none⟩).1 = .ok (str "u") :=
  ⟨by decide,
   cache_key_collision.2.2 (fun _ => 0) (fun _ => .error []) []
     [(cache_key (fun _ => 0) (str "at://ab") [str "c"],
       ResolveAtUriResult.Found (str "u"))]
     ⟨str "a.b", none, none⟩ (str "u") (by decide)⟩

/-- C2 counterexample: for the document with a single unscoped link
(`rel` the fixed relation, template `https://s/x`, no scope property) and an
AT-URI whose collection is present, the host-meta matcher returns nothing but
the webfinger matcher (on the field-for-field translation of the same
document) returns the expanded link, so the two variants do not compute the
same result and Variant A does not treat an unscoped link as scoped to
`"identity"`. -/
theorem wf_whm_matchers_disagree_on_unscoped_link :
    WebHostMeta.match_uri ⟨[], [⟨REL_LINK, some (str "https://s/x"), []⟩]⟩
      (str "s") ⟨str "a.b", some (str "a.b.c"), none⟩ = none
    ∧ Webfinger.match_uri
        (translateDoc ⟨[], [⟨REL_LINK, some (str "https://s/x"), []⟩]⟩)
        (str "s") ⟨str "a.b", some (str "a.b.c"), none⟩ =
        some (str "https://s/x") := by decide

/-- C6 counterexample: the identifier parser accepts `at://a.b/a.b.c/!`, whose
rkey `!` is outside `[A-Za-z0-9.-]`, and the matcher substitutes that rkey
into a chosen template unchanged. -/
theorem matcher_substitutes_invalid_rkey :
    validate_aturi (str "at://a.b/a.b.c/!") =
      some ⟨str "a.b", some (str "a.b.c"), some (str "!")⟩
    ∧ WebHostMeta.match_uri
        ⟨[], [⟨REL_LINK, some (str "https://s/{identity}/{rkey}"),
               [(NS_COLLECTION, str "a.b.c")]⟩]⟩
        (str "s") ⟨str "a.b", some (str "a.b.c"), some (str "!")⟩ =
        some (str "https://s/a.b/!")
    ∧ is_valid_char '!' = false := by decide

/-- C7 counterexample: for `s = "aaaaaaaaaaaaaaaaaaaaaaaa/a.b.c"` (30 bytes),
`parse("at://did:plc:" ++ s)` succeeds although the length of `s` is not 24:
the slash splits the remainder, the first segment's `did:plc:` rest is 24
characters, and the second segment is a valid NSID. -/
theorem did_plc_length_iff_fails :
    validate_aturi (str "at://did:plc:" ++ str "aaaaaaaaaaaaaaaaaaaaaaaa/a.b.c")
      ≠ none
    ∧ utf8Len (str "aaaaaaaaaaaaaaaaaaaaaaaa/a.b.c") ≠ 24 := by decide

/-- C8 counterexample: `validate_aturi` trims its input first, so the input
`" at://a.b"`, which does not start with `at://`, is still parsed
successfully rather than returning nothing. -/
theorem validate_aturi_accepts_untrimmed_input :
    validate_aturi (str " at://a.b") = some ⟨str "a.b", none, none⟩
    ∧ (str "at://").isPrefixOf (str " at://a.b") = false := by decide

theorem any_congr_on {α : Type} (l : List α) (p q : α → Bool)
    (hpq : ∀ x ∈ l, p x = q x) : l.any p = l.any q := by
  induction l with
  | nil => rfl
  | cons x rest ih =>
    simp only [List.any_cons]
    rw [hpq x (List.mem_cons_self x rest),
      ih (fun y hy => hpq y (List.mem_cons_of_mem x hy))]

theorem charBytes_of_valid (c : Char) (h : is_valid_char c = true) :
    charBytes c = 1 := by
  simp [is_valid_char] at h
  have h128 : c.toNat < 128 := by omega
  simp [charBytes, h128]

theorem utf8Len_eq_length_of_valid (l : Str)
    (h : ∀ c ∈ l, is_valid_char c = true) : utf8Len l = l.length := by
  induction l with
  | nil => rfl
  | cons c rest ih =>
    simp only [utf8Len, List.map_cons, List.sum_cons, List.length_cons]
    rw [charBytes_of_valid c (h c (List.mem_cons_self c rest))]
    have := ih (fun x hx => h x (List.mem_cons_of_mem c hx))
    simp only [utf8Len] at this
    omega

theorem splitOnChar_ne_nil (sep : Char) (l : Str) : splitOnChar sep l ≠ [] := by
  cases l with
  | nil => simp [splitOnChar]
  | cons c rest =>
    simp only [splitOnChar]
    by_cases hc : c = sep
    · simp [hc]
    · simp only [if_neg hc]
      cases splitOnChar sep rest <;> simp

theorem mem_of_mem_splitOnChar (sep : Char) (l : Str) :
    ∀ x ∈ splitOnChar sep l, ∀ c ∈ x, c ∈ l := by
  induction l with
  | nil =>
    intro x hx c hc
    simp [splitOnChar] at hx
    subst hx
    simp at hc
  | cons a rest ih =>
    intro x hx c hc
    simp only [splitOnChar] at hx
    by_cases ha : a = sep
    · rw [if_pos ha] at hx
      rcases List.mem_cons.mp hx with h1 | h2
      · subst h1; simp at hc
      · exact List.mem_cons_of_mem a (ih x h2 c hc)
    · rw [if_neg ha] at hx
      rcases hr : splitOnChar sep rest with _ | ⟨y, ys⟩
      · exact absurd hr (splitOnChar_ne_nil sep rest)
      · rw [hr] at hx
        rcases List.mem_cons.mp hx with h1 | h2
        · subst h1
          rcases List.mem_cons.mp hc with h3 | h4
          · subst h3; exact List.mem_cons_self c rest
          · refine List.mem_cons_of_mem a (ih y ?_ c h4)
            rw [hr]; exact List.mem_cons_self y ys
        · refine List.mem_cons_of_mem a (ih x ?_ c hc)
          rw [hr]; exact List.mem_cons_of_mem y h2

theorem dropWhile_eq_self_of_all (p : Char → Bool) (l : Str)
    (h : ∀ c ∈ l, p c = false) : l.dropWhile p = l := by
  cases l with
  | nil => rfl
  | cons c rest =>
    simp [List.dropWhile_cons, h c (List.mem_cons_self c rest)]

theorem trimList_eq_self (l : Str) (h : ∀ c ∈ l, rustIsWhitespace c = false) :
    trimList l = l := by
  unfold trimList
  rw [dropWhile_eq_self_of_all _ _ h,
    dropWhile_eq_self_of_all _ _ (fun c hc => h c (List.mem_reverse.mp hc)),
    List.reverse_reverse]

theorem stripPfx_append (p s : Str) : stripPfx p (p ++ s) = some s := by
  induction p with
  | nil => rfl
  | cons c ps ih => simp [stripPfx, ih]

theorem isPrefixOf_of_stripPfx (p : Str) :
    ∀ l s : Str, stripPfx p l = some s → p.isPrefixOf l = true := by
  induction p with
  | nil =>
    intro l s _
    simp [List.isPrefixOf]
  | cons c ps ih =>
    intro l s h
    cases l with
    | nil => simp [stripPfx] at h
    | cons d ds =>
      simp only [stripPfx] at h
      by_cases hcd : c = d
      · subst hcd
        rw [if_pos rfl] at h
        simp [List.isPrefixOf, ih ds s h]
      · rw [if_neg hcd] at h
        cases h

theorem splitOnChar_eq_single (sep : Char) (l : Str)
    (h : ∀ c ∈ l, ¬ c = sep) : splitOnChar sep l = [l] := by
  induction l with
  | nil => rfl
  | cons c rest ih =>
    simp only [splitOnChar]
    rw [if_neg (h c (List.mem_cons_self c rest)),
      ih (fun x hx => h x (List.mem_cons_of_mem c hx))]

theorem valid_nsid_chars (n : Str) (h : is_valid_nsid n = true) :
    ∀ c ∈ n, is_valid_char c = true := by
  intro c hc
  by_cases hval : is_valid_char c = true
  · exact hval
  · exfalso
    have hval' : is_valid_char c = false := by
      revert hval
      cases is_valid_char c <;> simp
    have hany : n.any (fun x => !is_valid_char x) = true :=
      List.any_eq_true.mpr ⟨c, hc, by simp [hval']⟩
    simp [is_valid_nsid, hany] at h

theorem valid_hostname_chars (hn : Str) (h : is_valid_hostname hn = true) :
    ∀ c ∈ hn, is_valid_char c = true := by
  intro c hc
  by_cases hval : is_valid_char c = true
  · exact hval
  · exfalso
    have hval' : is_valid_char c = false := by
      revert hval
      cases is_valid_char c <;> simp
    have hany : hn.any (fun x => !is_valid_char x) = true :=
      List.any_eq_true.mpr ⟨c, hc, by simp [hval']⟩
    simp [is_valid_hostname, hany] at h

theorem whmMatchLinks_eq_find (server : Str) (aturi : AtUri)
    (links : List WhmLink) :
    whmMatchLinks (str "https://" ++ server) aturi links =
      (links.find? (specLinkOk server aturi)).map
        (fun link => specExpand (link.template.getD []) aturi) := by
  induction links with
  | nil => rfl
  | cons link rest ih =>
    rw [whmMatchLinks]
    by_cases h1 : link.rel = REL_LINK
    · cases htpl : link.template with
      | none => simp [List.find?, specLinkOk, h1, htpl, ih]
      | some template =>
        by_cases h2 : (str "https://" ++ server).isPrefixOf template
        · by_cases h3 : (alookup link.properties NS_COLLECTION).getD
              (str "identity") = aturi.collection.getD (str "identity")
          · simp [List.find?, specLinkOk, h1, htpl, h2, h3, specExpand,
              expandTemplate]
          · simp [List.find?, specLinkOk, h1, htpl, h2,
              beq_eq_false_iff_ne.mpr h3, ih]
            exact fun hc => absurd hc h3
        · simp [List.find?, specLinkOk, h1, htpl, h2, ih]
    · simp [List.find?, specLinkOk, beq_eq_false_iff_ne.mpr h1, h1, ih]

/-- C3: for every discovery document, requesting server, and AT-URI, the
host-meta matcher returns the expansion of the first link in document order
whose relation is the fixed constant, whose template is present and starts
with `https://` followed by the server, and whose scope (collection property,
defaulting to `"identity"`) equals the AT-URI's collection (defaulting to
`"identity"`); it returns nothing (not an error) when no link qualifies. -/
theorem whm_match_uri_eq_spec (doc : WebHostMeta) (server : Str)
    (aturi : AtUri) :
    WebHostMeta.match_uri doc server aturi = specMatch doc server aturi := by
  unfold WebHostMeta.match_uri specMatch
  exact whmMatchLinks_eq_find server aturi doc.links

/-- C9: `is_valid_hostname` holds exactly when the hostname is non-empty, at
most 253 bytes, made of bytes in `[A-Za-z0-9.-]`, does not end with
`.localhost`, `.internal`, `.arpa`, or `.local`, and every dot-delimited label
is 1 to 63 characters and neither starts nor ends with a dash. -/
theorem is_valid_hostname_eq_claim (h : Str) :
    is_valid_hostname h = hostnameClaim h := by
  by_cases hall : ∀ c ∈ h, is_valid_char c = true
  · have hlab : ∀ l ∈ splitOnChar '.' h,
        (!(1 ≤ l.length && l.length ≤ 63
           && !startsWithChar l '-' && !endsWithChar l '-'))
        = (l.isEmpty || utf8Len l > 63
           || startsWithChar l '-' || endsWithChar l '-') := by
      intro l hl
      have hu : utf8Len l = l.length :=
        utf8Len_eq_length_of_valid l
          (fun c hc => hall c (mem_of_mem_splitOnChar '.' h l hl c hc))
      rw [hu]
      have hie : l.isEmpty = decide (l.length = 0) := by cases l <;> simp
      rw [hie]
      generalize startsWithChar l '-' = s
      generalize endsWithChar l '-' = e
      generalize l.length = n
      by_cases h0 : n = 0
      · subst h0
        cases s <;> cases e <;> decide
      · by_cases h63 : n ≤ 63
        · simp [h0, h63, Nat.one_le_iff_ne_zero.mpr h0, Nat.not_lt.mpr h63]
        · simp [h0, h63, Nat.not_le.mp h63, Nat.one_le_iff_ne_zero.mpr h0]
    have hlabs : ((splitOnChar '.' h).all (fun label =>
          1 ≤ label.length && label.length ≤ 63
          && !startsWithChar label '-' && !endsWithChar label '-'))
        = !((splitOnChar '.' h).any (fun label =>
            label.isEmpty || utf8Len label > 63
            || startsWithChar label '-' || endsWithChar label '-')) := by
      rw [List.all_eq_not_any_not]
      exact congrArg (fun b => !b) (any_congr_on _ _ _ hlab)
    have h253 : (decide (utf8Len h ≤ 253)) = !decide (utf8Len h > 253) := by
      by_cases hc : utf8Len h ≤ 253
      · simp [hc, Nat.not_lt.mpr hc]
      · simp [hc, Nat.not_le.mp hc]
    unfold is_valid_hostname hostnameClaim
    rw [List.all_eq_not_any_not, hlabs, h253]
    generalize (str ".localhost").isSuffixOf h = b1
    generalize (str ".internal").isSuffixOf h = b2
    generalize (str ".arpa").isSuffixOf h = b3
    generalize (str ".local").isSuffixOf h = b4
    generalize (h.any fun c => !is_valid_char c) = b5
    generalize ((splitOnChar '.' h).any fun label =>
      label.isEmpty || utf8Len label > 63
      || startsWithChar label '-' || endsWithChar label '-') = b6
    generalize h.isEmpty = b7
    generalize decide (utf8Len h > 253) = b8
    revert b1 b2 b3 b4 b5 b6 b7 b8
    decide
  · have hany : h.any (fun c => !is_valid_char c) = true := by
      push_neg at hall
      obtain ⟨c, hc, hv⟩ := hall
      simp only [List.any_eq_true]
      exact ⟨c, hc, by simp [Bool.not_eq_true] at hv ⊢; exact hv⟩
    have hlhs : is_valid_hostname h = false := by
      simp [is_valid_hostname, hany]
    have hclaim : h.all is_valid_char = false := by
      rw [List.all_eq_not_any_not, hany]
      rfl
    have hrhs : hostnameClaim h = false := by
      simp [hostnameClaim, hclaim]
    rw [hlhs, hrhs]

/-- C7 (amended): for every string `s` containing no slash and no whitespace,
`parse("at://did:plc:" + s)` succeeds if and only if `s` is exactly 24 bytes
long, with no constraint on which characters `s` contains; a slash in `s`
splits the remainder into further segments and whitespace is trimmed, so the
unrestricted claim fails (see the counterexample). -/
theorem did_plc_parse_iff_len24 (s : Str)
    (h : ∀ c ∈ s, ¬ c = '/' ∧ rustIsWhitespace c = false) :
    validate_aturi (str "at://did:plc:" ++ s) =
      if utf8Len s = 24 then some ⟨str "did:plc:" ++ s, none, none⟩
      else none := by
  have hlitws : ∀ c ∈ str "at://did:plc:", rustIsWhitespace c = false := by decide
  have htrim : trimList (str "at://did:plc:" ++ s) = str "at://did:plc:" ++ s := by
    apply trimList_eq_self
    intro c hc
    rcases List.mem_append.mp hc with h1 | h2
    · exact hlitws c h1
    · exact (h c h2).2
  have hsplit : str "at://did:plc:" ++ s =
      str "at://" ++ (str "did:plc:" ++ s) := by
    rw [← List.append_assoc]
    exact congrArg (fun l => l ++ s)
      (by decide : str "at://did:plc:" = str "at://" ++ str "did:plc:")
  have hlitsl : ∀ c ∈ str "did:plc:", ¬ c = '/' := by decide
  have hsingle : splitOnChar '/' (str "did:plc:" ++ s) =
      [str "did:plc:" ++ s] := by
    apply splitOnChar_eq_single
    intro c hc
    rcases List.mem_append.mp hc with h1 | h2
    · exact hlitsl c h1
    · exact (h c h2).1
  have hweb : stripPfx (str "did:web:") (str "did:plc:" ++ s) = none := rfl
  have hid : is_valid_identity (str "did:plc:" ++ s) = (utf8Len s == 24) := by
    unfold is_valid_identity
    rw [hweb, stripPfx_append]
  have htrim2 : trimList (str "at://" ++ (str "did:plc:" ++ s)) =
      str "at://" ++ (str "did:plc:" ++ s) := by
    rw [← hsplit]
    exact htrim
  simp only [validate_aturi, hsplit, htrim2, stripPfx_append, hsingle]
  by_cases h24 : utf8Len s = 24
  · simp [hid, h24]
  · simp [hid, h24]

/-- C8 (amended): `validate_aturi` first trims leading and trailing
whitespace from the input; thereafter it returns nothing — never an error —
when the trimmed input lacks the `at://` prefix, when the remainder splits on
`/` into more than 3 segments, when segment 0 is not a valid identity, or
when a present segment 1 is not a valid NSID; on success it returns
`AtUri` with identity segment 0, collection segment 1 if present, and rkey
segment 2 if present. -/
theorem validate_aturi_cases (input : Str) :
    (stripPfx (str "at://") (trimList input) = none →
      validate_aturi input = none)
    ∧ (∀ rest, stripPfx (str "at://") (trimList input) = some rest →
        (((splitOnChar '/' rest).length > 3
          ∨ is_valid_identity ((splitOnChar '/' rest).headD []) = false
          ∨ ((splitOnChar '/' rest).length > 1
             ∧ is_valid_nsid (((splitOnChar '/' rest).get? 1).getD []) = false))
          → validate_aturi input = none)
        ∧ ((splitOnChar '/' rest).length ≤ 3 →
           is_valid_identity ((splitOnChar '/' rest).headD []) = true →
           ((splitOnChar '/' rest).length > 1 →
             is_valid_nsid (((splitOnChar '/' rest).get? 1).getD []) = true) →
           validate_aturi input =
             some ⟨(splitOnChar '/' rest).headD [],
                   (splitOnChar '/' rest).get? 1,
                   (splitOnChar '/' rest).get? 2⟩)) := by
  refine ⟨?_, ?_⟩
  · intro hnone
    simp only [validate_aturi]
    rw [hnone]
  · intro rest hsome
    have hne := splitOnChar_ne_nil '/' rest
    refine ⟨?_, ?_⟩
    · intro hbad
      simp only [validate_aturi, hsome]
      split
      · rfl
      · split
        · rfl
        · split
          · rfl
          · exfalso
            rename_i hg1 hg2 hg3
            rcases hbad with h3 | hident | ⟨hlen, hnsid⟩
            · exact hg3 h3
            · simp_all [List.headD_eq_head?_getD]
            · simp_all
    · intro hlen3 hident hnsid
      simp only [validate_aturi, hsome]
      rw [if_neg (by
            simp [← List.headD_eq_head?_getD]
            exact fun _ => hident),
        if_neg ?_, if_neg (by omega)]
      by_cases hl : 1 < (splitOnChar '/' rest).length
      · simpa [hl] using hnsid hl
      · simp [hl]

theorem validate_aturi_cases_witness :
    stripPfx (str "at://") (trimList (str " at://a.b/a.b.c/r ")) =
      some (str "a.b/a.b.c/r")
    ∧ validate_aturi (str " at://a.b/a.b.c/r ") =
        some ⟨str "a.b", some (str "a.b.c"), some (str "r")⟩ :=
  ⟨by decide, by
    have h := ((validate_aturi_cases (str " at://a.b/a.b.c/r ")).2
      (str "a.b/a.b.c/r") (by decide)).2 (by decide) (by decide)
      (fun _ => by decide)
    rw [h]
    decide⟩

theorem did_plc_parse_iff_len24_witness :
    (∀ c ∈ str "aaaaaaaaaaaaaaaaaaaaaaaa", ¬ c = '/' ∧ rustIsWhitespace c = false)
    ∧ validate_aturi (str "at://did:plc:" ++ str "aaaaaaaaaaaaaaaaaaaaaaaa") =
        some ⟨str "did:plc:" ++ str "aaaaaaaaaaaaaaaaaaaaaaaa", none, none⟩ :=
  ⟨by decide, by
    rw [did_plc_parse_iff_len24 (str "aaaaaaaaaaaaaaaaaaaaaaaa") (by decide)]
    decide⟩

/-- C6 (amended): for every input accepted by the identifier parser, the
collection (when present) and a non-did identity consist only of bytes in
`[A-Za-z0-9.-]`; the validator does not so constrain the rkey or the
remainder of a did identity (see the counterexample). -/
theorem validate_aturi_charset (input : Str) (aturi : AtUri)
    (h : validate_aturi input = some aturi) :
    (∀ c ∈ aturi.collection.getD [], is_valid_char c = true)
    ∧ ((str "did:web:").isPrefixOf aturi.identity = false →
       (str "did:plc:").isPrefixOf aturi.identity = false →
       ∀ c ∈ aturi.identity, is_valid_char c = true) := by
  simp only [validate_aturi] at h
  cases hstrip : stripPfx (str "at://") (trimList input) with
  | none =>
    rw [hstrip] at h
    cases h
  | some rest =>
    simp only [hstrip] at h
    have hne := splitOnChar_ne_nil '/' rest
    split at h
    · cases h
    · split at h
      · cases h
      · split at h
        · cases h
        · rename_i hg1 hg2 hg3
          injection h with h
          subst h
          have hident : is_valid_identity
              ((splitOnChar '/' rest).headD []) = true := by
            by_cases hv : is_valid_identity ((splitOnChar '/' rest).headD [])
                = true
            · exact hv
            · exfalso
              apply hg1
              have hv' : is_valid_identity ((splitOnChar '/' rest).headD [])
                  = false := by
                revert hv
                cases is_valid_identity ((splitOnChar '/' rest).headD []) <;>
                  simp
              simp [hne, hv', ← List.headD_eq_head?_getD]
          have hcolval : ∀ c', (splitOnChar '/' rest).get? 1 = some c' →
              is_valid_nsid c' = true := by
            intro c' hc'
            have hlen : 1 < (splitOnChar '/' rest).length := by
              obtain ⟨hl, -⟩ := List.get?_eq_some.mp hc'
              exact hl
            by_cases hv : is_valid_nsid c' = true
            · exact hv
            · exfalso
              have hv' : is_valid_nsid c' = false := by
                revert hv
                cases is_valid_nsid c' <;> simp
              apply hg2
              rw [hc']
              simp [hlen, hv']
          refine ⟨?_, ?_⟩
          · cases hcol : (splitOnChar '/' rest).get? 1 with
            | none => simp [hcol]
            | some c' =>
              simp only [hcol, Option.getD_some]
              exact valid_nsid_chars c' (hcolval c' hcol)
          · intro hw hp c hc
            simp only [← List.headD_eq_head?_getD] at hw hp hc
            unfold is_valid_identity at hident
            cases hweb : stripPfx (str "did:web:")
                ((splitOnChar '/' rest).headD []) with
            | some t =>
              have hpf := isPrefixOf_of_stripPfx (str "did:web:") _ t hweb
              rw [hpf] at hw
              exact absurd hw (by decide)
            | none =>
              rw [hweb] at hident
              cases hplc : stripPfx (str "did:plc:")
                  ((splitOnChar '/' rest).headD []) with
              | some t =>
                have hpf := isPrefixOf_of_stripPfx (str "did:plc:") _ t hplc
                rw [hpf] at hp
                exact absurd hp (by decide)
              | none =>
                rw [hplc] at hident
                rw [Bool.and_eq_true] at hident
                exact valid_hostname_chars _ hident.1 c hc

theorem validate_aturi_charset_witness :
    validate_aturi (str "at://a.b/a.b.c/x") =
      some ⟨str "a.b", some (str "a.b.c"), some (str "x")⟩
    ∧ ((∀ c ∈ (some (str "a.b.c")).getD [], is_valid_char c = true)
       ∧ ((str "did:web:").isPrefixOf (str "a.b") = false →
          (str "did:plc:").isPrefixOf (str "a.b") = false →
          ∀ c ∈ str "a.b", is_valid_char c = true)) :=
  ⟨by decide, validate_aturi_charset (str "at://a.b/a.b.c/x")
    ⟨str "a.b", some (str "a.b.c"), some (str "x")⟩ (by decide)⟩

theorem isPrefixOf_nil_eq_false (p : Str) (h : p ≠ []) :
    p.isPrefixOf ([] : Str) = false := by
  cases p with
  | nil => exact absurd rfl h
  | cons c cs => rfl

theorem wf_whm_links_agree (pfx : Str) (aturi : AtUri) (hpfx : pfx ≠ [])
    (links : List WhmLink)
    (hscope : ∀ l ∈ links, (alookup l.properties NS_COLLECTION).isSome = true)
    (hrel : ∀ l ∈ links,
      l.rel ≠ str "https://hopper.at/spec/schema/1.0/link") :
    wfMatchLinks pfx aturi (links.map translateLink) =
      whmMatchLinks pfx aturi links := by
  induction links with
  | nil => rfl
  | cons link rest ih =>
    have ihr := ih (fun l hl => hscope l (List.mem_cons_of_mem link hl))
      (fun l hl => hrel l (List.mem_cons_of_mem link hl))
    rw [List.map_cons, wfMatchLinks, whmMatchLinks]
    by_cases hr : link.rel = REL_LINK
    · cases htpl : link.template with
      | none =>
        simp [translateLink, hr, htpl, isPrefixOf_nil_eq_false pfx hpfx, ihr]
      | some template =>
        by_cases hpf : pfx.isPrefixOf template = true
        · obtain ⟨v, hv⟩ := Option.isSome_iff_exists.mp
            (hscope link (List.mem_cons_self link rest))
          by_cases hcol : v = aturi.collection.getD (str "identity")
          · simp [translateLink, hr, htpl, hpf, hv, hcol, alookup]
          · simp [translateLink, hr, htpl, hpf, hv, hcol, alookup, ihr]
        · have hpf' : pfx.isPrefixOf template = false := by
            revert hpf
            cases pfx.isPrefixOf template <;> simp
          simp [translateLink, hr, htpl, hpf', ihr]
    · have hr2 : link.rel ≠ str "https://hopper.at/spec/schema/1.0/link" :=
        hrel link (List.mem_cons_self link rest)
      by_cases hpf : pfx.isPrefixOf (link.template.getD []) = true
      · simp [translateLink, hr, hr2, hpf, ihr]
      · have hpf' : pfx.isPrefixOf (link.template.getD []) = false := by
          revert hpf
          cases pfx.isPrefixOf (link.template.getD []) <;> simp
        simp [translateLink, hr, hpf', ihr]

/-- C2 (amended): for documents in which every link carries an explicit scope
property (and no link uses the other variant's relation constant), the
webfinger matcher on the field-for-field translation of a host-meta document
computes the same result as the host-meta matcher; when a link's scope
property is absent the two variants disagree — host-meta defaults the scope
to `"identity"` while webfinger skips the scope check entirely (see the
counterexample). -/
theorem wf_whm_match_agree_on_scoped_docs (doc : WebHostMeta) (server : Str)
    (aturi : AtUri)
    (hscope : ∀ l ∈ doc.links,
      (alookup l.properties NS_COLLECTION).isSome = true)
    (hrel : ∀ l ∈ doc.links,
      l.rel ≠ str "https://hopper.at/spec/schema/1.0/link") :
    Webfinger.match_uri (translateDoc doc) server aturi =
      WebHostMeta.match_uri doc server aturi := by
  unfold Webfinger.match_uri WebHostMeta.match_uri translateDoc
  exact wf_whm_links_agree (str "https://" ++ server) aturi
    (by simp [str]) doc.links hscope hrel

theorem wf_whm_match_agree_witness :
    (∀ l ∈ (⟨[], [⟨REL_LINK, some (str "https://s/x"),
        [(NS_COLLECTION, str "identity")]⟩]⟩ : WebHostMeta).links,
      (alookup l.properties NS_COLLECTION).isSome = true)
    ∧ (∀ l ∈ (⟨[], [⟨REL_LINK, some (str "https://s/x"),
        [(NS_COLLECTION, str "identity")]⟩]⟩ : WebHostMeta).links,
      l.rel ≠ str "https://hopper.at/spec/schema/1.0/link")
    ∧ Webfinger.match_uri
        (translateDoc ⟨[], [⟨REL_LINK, some (str "https://s/x"),
          [(NS_COLLECTION, str "identity")]⟩]⟩)
        (str "s") ⟨str "a.b", none, none⟩ =
      WebHostMeta.match_uri
        ⟨[], [⟨REL_LINK, some (str "https://s/x"),
          [(NS_COLLECTION, str "identity")]⟩]⟩
        (str "s") ⟨str "a.b", none, none⟩ :=
  ⟨by decide, by decide,
   wf_whm_match_agree_on_scoped_docs
     ⟨[], [⟨REL_LINK, some (str "https://s/x"),
       [(NS_COLLECTION, str "identity")]⟩]⟩
     (str "s") ⟨str "a.b", none, none⟩ (by decide) (by decide)⟩

theorem webhostmeta_cached_coherent (fetch : Fetch) (d : DCache) (s : Str)
    (hco : DCoherent fetch d) :
    (webhostmeta_cached fetch d s).1 = (match serverDoc fetch d s with
      | .Found w => .ok w
      | .NotFound e => .error e)
    ∧ DCoherent fetch (webhostmeta_cached fetch d s).2.1
    ∧ ∀ x, serverDoc fetch (webhostmeta_cached fetch d s).2.1 x =
        serverDoc fetch d x := by
  cases hl : alookup d s with
  | some r =>
    cases r with
    | Found w => simp [webhostmeta_cached, serverDoc, hl, hco]
    | NotFound e => simp [webhostmeta_cached, serverDoc, hl, hco]
  | none =>
    cases hf : fetch s with
    | ok w =>
      refine ⟨by simp [webhostmeta_cached, serverDoc, fetchResultOf, hl, hf],
        ?_, ?_⟩
      · intro x r hx
        simp only [webhostmeta_cached, hl, hf] at hx
        simp only [alookup] at hx
        by_cases hsx : s = x
        · subst hsx
          rw [if_pos rfl] at hx
          injection hx with hx
          rw [← hx]
          simp [fetchResultOf, hf]
        · rw [if_neg hsx] at hx
          exact hco x r hx
      · intro x
        simp only [webhostmeta_cached, hl, hf, serverDoc]
        simp only [alookup]
        by_cases hsx : s = x
        · subst hsx
          rw [if_pos rfl, hl]
          simp [fetchResultOf, hf]
        · rw [if_neg hsx]
    | error e =>
      refine ⟨by simp [webhostmeta_cached, serverDoc, fetchResultOf, hl, hf],
        ?_, ?_⟩
      · intro x r hx
        simp only [webhostmeta_cached, hl, hf] at hx
        simp only [alookup] at hx
        by_cases hsx : s = x
        · subst hsx
          rw [if_pos rfl] at hx
          injection hx with hx
          rw [← hx]
          simp [fetchResultOf, hf]
        · rw [if_neg hsx] at hx
          exact hco x r hx
      · intro x
        simp only [webhostmeta_cached, hl, hf, serverDoc]
        simp only [alookup]
        by_cases hsx : s = x
        · subst hsx
          rw [if_pos rfl, hl]
          simp [fetchResultOf, hf]
        · rw [if_neg hsx]

theorem firstDest_congr (fetch : Fetch) (aturi : AtUri) (d1 d2 : DCache)
    (h : ∀ x, serverDoc fetch d1 x = serverDoc fetch d2 x) :
    ∀ l, firstDest fetch d1 aturi l = firstDest fetch d2 aturi l := by
  intro l
  induction l with
  | nil => rfl
  | cons s rest ih =>
    unfold firstDest serverDest
    rw [h s, ih]

theorem aturi_loop_spec (fetch : Fetch) (aturi : AtUri) (servers : List Str) :
    ∀ d : DCache, DCoherent fetch d →
      (aturi_loop fetch aturi servers d).1 = firstDest fetch d aturi servers := by
  induction servers with
  | nil => intro d _; rfl
  | cons s rest ih =>
    intro d hco
    obtain ⟨h1, h2, h3⟩ := webhostmeta_cached_coherent fetch d s hco
    rcases hwc : webhostmeta_cached fetch d s with ⟨res, d', n⟩
    rw [hwc] at h1 h2 h3
    simp only at h1 h2 h3
    unfold aturi_loop firstDest serverDest
    rw [hwc]
    cases hdoc : serverDoc fetch d s with
    | NotFound e =>
      rw [hdoc] at h1
      simp only at h1
      subst h1
      simp only
      rw [ih d' h2, firstDest_congr fetch aturi d' d h3]
    | Found w =>
      rw [hdoc] at h1
      simp only at h1
      subst h1
      simp only
      cases hm : w.match_uri s aturi with
      | some destination => rfl
      | none => rw [ih d' h2, firstDest_congr fetch aturi d' d h3]

/-- C1: on a resolution-cache miss, `aturi_cached` iterates the candidate
servers in the caller-supplied order; a fetch error for one server only skips
to the next server (it contributes no destination) and never aborts the loop;
at the first server whose discovery document yields a non-empty template
match, iteration stops, `Found(url)` is cached under the computed key and
`url` is returned as success; if every server is exhausted without a match
(or all fetches failed), a `NotFound` entry is cached and an error is
returned. `firstDest` is the first-match-in-order specification; the
coherence hypothesis states that every live discovery-cache entry is the
recorded outcome of fetching its key. -/
theorem aturi_cached_miss_resolves_first_match (hashFn : Str → Nat)
    (fetch : Fetch) (dcache : DCache) (acache : ACache) (servers : List Str)
    (input : Str) (aturi : AtUri)
    (hco : DCoherent fetch dcache)
    (hmiss : alookup acache (cache_key hashFn input servers) = none) :
    (∀ url, firstDest fetch dcache aturi servers = some url →
      (aturi_cached hashFn fetch dcache acache servers input aturi).1 =
        .ok url
      ∧ (aturi_cached hashFn fetch dcache acache servers input aturi).2.2.1 =
          (cache_key hashFn input servers, .Found url) :: acache)
    ∧ (firstDest fetch dcache aturi servers = none →
      (aturi_cached hashFn fetch dcache acache servers input aturi).1 =
        .error UNSUPPORTED_MSG
      ∧ (aturi_cached hashFn fetch dcache acache servers input aturi).2.2.1 =
          (cache_key hashFn input servers,
            .NotFound UNSUPPORTED_MSG) :: acache) := by
  have hloop := aturi_loop_spec fetch aturi servers dcache hco
  rcases hl : aturi_loop fetch aturi servers dcache with ⟨o, d', n⟩
  rw [hl] at hloop
  simp only at hloop
  constructor
  · intro url hurl
    rw [hurl] at hloop
    subst hloop
    constructor <;> simp [aturi_cached, hmiss, hl]
  · intro hnone
    rw [hnone] at hloop
    subst hloop
    constructor <;> simp [aturi_cached, hmiss, hl]

theorem aturi_cached_miss_resolves_first_match_witness :
    DCoherent (fun _ => Except.ok ⟨[], [⟨REL_LINK,
        some (str "https://s/{identity}"), []⟩]⟩) []
    ∧ firstDest (fun _ => Except.ok ⟨[], [⟨REL_LINK,
        some (str "https://s/{identity}"), []⟩]⟩) [] ⟨str "a.b", none, none⟩
        [str "s"] = some (str "https://s/a.b")
    ∧ (aturi_cached (fun _ => 0) (fun _ => Except.ok ⟨[], [⟨REL_LINK,
        some (str "https://s/{identity}"), []⟩]⟩) [] [] [str "s"]
        (str "at://a.b") ⟨str "a.b", none, none⟩).1 =
        .ok (str "https://s/a.b") :=
  ⟨fun s r h => by simp [alookup] at h,
   by decide,
   ((aturi_cached_miss_resolves_first_match (fun _ => 0)
      (fun _ => Except.ok ⟨[], [⟨REL_LINK,
        some (str "https://s/{identity}"), []⟩]⟩) [] [] [str "s"]
      (str "at://a.b") ⟨str "a.b", none, none⟩
      (fun s r h => by simp [alookup] at h) rfl).1
      (str "https://s/a.b") (by decide)).1⟩
